import Mathlib

/-!
Shallow embedding of the state-namespacing core of `jotai-tree-state-prototype`
(`src/jotai-persist.tsx`, `src/memo-equal.ts`).

The container is a JavaScript object `Record<string, unknown>`; we embed the
JavaScript runtime values the code manipulates as an inductive type `JVal`,
with objects as ordered association lists (mirroring JS property order:
spread-with-override keeps an existing key in place and appends a fresh key).
Property access on non-objects yields `undefined` (`none`); string index
properties and prototype-chain lookups are not modelled, matching the code's
own view of the data as `Record<string, unknown>`.
-/

namespace JotaiTree

/-- JavaScript runtime values stored in the state container. -/
inductive JVal where
  | vnull : JVal
  | vbool : Bool → JVal
  | vnum : Int → JVal
  | vstr : String → JVal
  | vobj : List (String × JVal) → JVal

/-- A JavaScript object: ordered list of key/value fields. -/
abbrev JObj := List (String × JVal)

/-- First-match field lookup, the semantics of `o[k]` on a JS object
(`none` models `undefined`). -/
def lookupField : JObj → String → Option JVal
  | [], _ => none
  | (k, v) :: rest, key => if k = key then some v else lookupField rest key

/-- Property access `v[key]` on an arbitrary value: objects look up the
field, everything else yields `undefined`. -/
def JVal.getProp : JVal → String → Option JVal
  | JVal.vobj fields, key => lookupField fields key
  | _, _ => none

/-- JavaScript truthiness of a value. -/
def JVal.truthy : JVal → Bool
  | JVal.vnull => false
  | JVal.vbool b => b
  | JVal.vnum n => n != 0
  | JVal.vstr s => s != ""
  | JVal.vobj _ => true

/-- Whether a value is an object (a container node). -/
def JVal.isObj : JVal → Bool
  | JVal.vobj _ => true
  | _ => false

/-- Whether a value is `null`. -/
def JVal.isNull : JVal → Bool
  | JVal.vnull => true
  | _ => false

/-- The expression `x || \x7b\x7d` applied to a possibly-undefined value:
falsy or missing values are replaced by a fresh empty object. -/
def orEmptyObj : Option JVal → JVal
  | some v => if v.truthy then v else JVal.vobj []
  | none => JVal.vobj []

/-- Own enumerable fields contributed by `\x7b...v\x7d` (spread): objects
contribute their fields, primitives contribute none. -/
def JVal.spreadFields : JVal → JObj
  | JVal.vobj fields => fields
  | _ => []

/-- The object literal `\x7b...o, [key]: value\x7d`: an existing key is
overridden in place, a fresh key is appended at the end. -/
def setField : JObj → String → JVal → JObj
  | [], key, value => [(key, value)]
  | (k, v) :: rest, key, value =>
      if k = key then (key, value) :: rest else (k, v) :: setField rest key value

/-- One iteration of the read loop in `createNamespacedAtom`:
`state = state[segment] || \x7b\x7d`. -/
def readStep (state : JVal) (segment : String) : JVal :=
  orEmptyObj (state.getProp segment)

/-- The whole read loop: `for (const segment of path) state = state[segment] || \x7b\x7d`. -/
def descend (state : JVal) (path : List String) : JVal :=
  path.foldl readStep state

/-- Nullish coalescing `x ?? dflt`: `null` and `undefined` fall back to the default. -/
def nullishCoalesce : Option JVal → JVal → JVal
  | some JVal.vnull, dflt => dflt
  | some v, _ => v
  | none, dflt => dflt

/-- The read function of the atom built by `createNamespacedAtom`: descend
through `path`, then `state[key] ?? defaultValue`. -/
def readFrom (state : JVal) (path : List String) (key : String) (dflt : JVal) : JVal :=
  nullishCoalesce ((descend state path).getProp key) dflt

/-- Namespaced read starting from the root container. -/
def readValue (root : JObj) (path : List String) (key : String) (dflt : JVal) : JVal :=
  readFrom (JVal.vobj root) path key dflt

/-- `setDeepValue` from `jotai-persist.tsx`: immutable nested write.
`keys = []` gives `\x7b...obj, [key]: value\x7d`; otherwise the head segment is
rebuilt from `(obj[first] as Record<string, unknown>) || \x7b\x7d` and the rest
of the object is spread through unchanged. The first argument ranges over all
values because the cast lets any stored value reach the recursive call. -/
def setDeepValue (obj : JVal) (keys : List String) (key : String) (value : JVal) : JObj :=
  match keys with
  | [] => setField obj.spreadFields key value
  | first :: rest =>
      setField obj.spreadFields first
        (JVal.vobj (setDeepValue (orEmptyObj (obj.getProp first)) rest key value))

/-- An update as accepted by the atom's write function: a plain value or an
updater function (`typeof update === "function"`). -/
inductive Update where
  | value : JVal → Update
  | updater : (JVal → JVal) → Update

/-- The write function of the atom built by `createNamespacedAtom`: read the
current value through the atom's own read function, apply the updater to it
(or take the plain value), then `setDeepValue` into the storage state. -/
def writeAtom (root : JObj) (path : List String) (key : String) (dflt : JVal)
    (update : Update) : JObj :=
  let currentValue := readValue root path key dflt
  let newValue :=
    match update with
    | Update.value v => v
    | Update.updater f => f currentValue
  setDeepValue (JVal.vobj root) path key newValue

/-- The updater `(c) => c + 1` used by the demo counters: adds one to a
numeric value (the identity elsewhere). -/
def incrementUpdater : JVal → JVal
  | JVal.vnum n => JVal.vnum (n + 1)
  | w => w

/-- Raw subtree lookup: the object reachable from `v` by successive property
access along a position, with no coercions.  `rawSub v q` is the subtree a
consumer holds a reference to at position `q`. -/
def rawSub : JVal → List String → Option JVal
  | v, [] => some v
  | v, seg :: rest =>
      match v.getProp seg with
      | some w => rawSub w rest
      | none => none

/-- `listStartsWith l p` holds when `p` is an initial segment of `l`. -/
def listStartsWith : List String → List String → Bool
  | _, [] => true
  | [], _ :: _ => false
  | a :: as, b :: bs => a == b && listStartsWith as bs

/-!  The provider layer (`StateNamespaceProvider`).  Atom identity is
abstracted as a natural number: what matters is only which container object a
scope ends up bound to. -/

/-- The value carried by `NamespaceContext`: the accumulated namespace path
and the shared storage atom. -/
structure NamespaceCtx where
  nspace : List String
  namespaceAtom : Nat

/-- The atom `atomWithStorage("root", \x7b\x7d)` baked into the default context. -/
def defaultNamespaceAtom : Nat := 0

/-- The default context value of `NamespaceContext` (empty path, default atom). -/
def initialNamespaceContext : NamespaceCtx :=
  { nspace := [], namespaceAtom := defaultNamespaceAtom }

/-- The props of one `StateNamespaceProvider`: the optional namespace segment
and the optional root storage atom. -/
structure ProviderProps where
  segment : Option String
  rootAtom : Option Nat

/-- `StateNamespaceProvider`: the context value supplied to the children,
as a function of the parent context and the props.
`newNamespace` appends the segment when the string is truthy; the atom is
replaced by `rootAtom` exactly when `rootAtom` is given and the parent's
namespace path is empty (`isRootNamespace`). -/
def stateNamespaceProvider (parent : NamespaceCtx) (props : ProviderProps) : NamespaceCtx :=
  let newNamespace :=
    match props.segment with
    | some s => if s = "" then parent.nspace else parent.nspace ++ [s]
    | none => parent.nspace
  let isRootNamespace := parent.nspace.isEmpty
  let newAtom :=
    match props.rootAtom with
    | some a => if isRootNamespace then a else parent.namespaceAtom
    | none => parent.namespaceAtom
  { nspace := newNamespace, namespaceAtom := newAtom }

/-- The context seen below a chain of nested providers (outermost first),
starting from the default context. -/
def mountProviders (chain : List ProviderProps) : NamespaceCtx :=
  chain.foldl stateNamespaceProvider initialNamespaceContext

/-- Whether any scope of a chain declares a `rootAtom` prop. -/
def anyDeclaresRoot (chain : List ProviderProps) : Bool :=
  chain.any fun p => p.rootAtom.isSome

/-!  Path memoization (`compareStringArrays`, `useMemoEqual`). -/

/-- `compareStringArrays` from `jotai-persist.tsx`: length check, then
element-wise comparison. -/
def compareStringArrays (a b : List String) : Bool :=
  if a.length ≠ b.length then false
  else (a.zip b).all fun p => p.1 == p.2

/-- `useMemoEqual` for one render: given the ref's current value and the new
value, return the value the hook yields (which is also the ref's new value).
The guard is reference equality (modelled as structural equality, which it
implies) or the custom comparator. -/
def useMemoEqual (refCurrent value : List String)
    (checkEqual : List String → List String → Bool) : List String :=
  if value == refCurrent || checkEqual value refCurrent then refCurrent else value

/-!  Basic lemmas about fields, descent and the read/write helpers. -/

theorem lookupField_setField_self (f : JObj) (k : String) (v : JVal) :
    lookupField (setField f k v) k = some v := by
  induction f with
  | nil => simp [setField, lookupField]
  | cons hd tl ih =>
      obtain ⟨k2, v2⟩ := hd
      by_cases h : k2 = k
      · simp [setField, h, lookupField]
      · simp [setField, h, lookupField, ih]

theorem lookupField_setField_ne (f : JObj) (k k2 : String) (v : JVal) (h : k2 ≠ k) :
    lookupField (setField f k v) k2 = lookupField f k2 := by
  have hk : ¬ k = k2 := fun hh => h hh.symm
  induction f with
  | nil => simp [setField, lookupField, hk]
  | cons hd tl ih =>
      obtain ⟨k3, v3⟩ := hd
      by_cases h3 : k3 = k
      · subst h3
        simp [setField, lookupField, hk]
      · simp [setField, h3, lookupField, ih]

theorem getProp_eq_lookupField_spread (s : JVal) (b : String) :
    s.getProp b = lookupField s.spreadFields b := by
  cases s <;> simp [JVal.getProp, JVal.spreadFields, lookupField]

theorem getProp_nonobj (s : JVal) (h : s.isObj = false) (k : String) :
    s.getProp k = none := by
  cases s <;> simp_all [JVal.getProp, JVal.isObj]

theorem spreadFields_nonobj (s : JVal) (h : s.isObj = false) :
    s.spreadFields = [] := by
  cases s <;> simp_all [JVal.spreadFields, JVal.isObj]

theorem getProp_some_isObj (v : JVal) (k : String) (w : JVal) (h : v.getProp k = some w) :
    v.isObj = true := by
  cases v <;> simp_all [JVal.getProp, JVal.isObj]

theorem truthy_of_isObj (v : JVal) (h : v.isObj = true) : v.truthy = true := by
  cases v <;> simp_all [JVal.truthy, JVal.isObj]

theorem isObj_false_of_truthy_false (v : JVal) (h : v.truthy = false) : v.isObj = false := by
  cases v <;> simp_all [JVal.truthy, JVal.isObj]

theorem nullishCoalesce_some (v d : JVal) :
    nullishCoalesce (some v) d = if v.isNull then d else v := by
  cases v <;> rfl

theorem descend_cons (s : JVal) (a : String) (rest : List String) :
    descend s (a :: rest) = descend (readStep s a) rest := rfl

theorem readFrom_cons (s : JVal) (a : String) (rest : List String) (k : String) (d : JVal) :
    readFrom s (a :: rest) k d = readFrom (readStep s a) rest k d := rfl

theorem descend_append (s : JVal) (p q : List String) :
    descend s (p ++ q) = descend (descend s p) q :=
  List.foldl_append _ _ _ _

theorem descend_empty (path : List String) :
    descend (JVal.vobj []) path = JVal.vobj [] := by
  induction path with
  | nil => rfl
  | cons a rest ih =>
      rw [descend_cons]
      have : readStep (JVal.vobj []) a = JVal.vobj [] := by
        simp [readStep, JVal.getProp, lookupField, orEmptyObj]
      rw [this, ih]

theorem readFrom_empty (path : List String) (key : String) (dflt : JVal) :
    readFrom (JVal.vobj []) path key dflt = dflt := by
  simp [readFrom, descend_empty, JVal.getProp, lookupField, nullishCoalesce]

theorem readFrom_nonobj (s : JVal) (h : s.isObj = false) (path : List String)
    (key : String) (dflt : JVal) : readFrom s path key dflt = dflt := by
  cases path with
  | nil => simp [readFrom, descend, getProp_nonobj _ h, nullishCoalesce]
  | cons a rest =>
      rw [readFrom_cons]
      have : readStep s a = JVal.vobj [] := by
        simp [readStep, getProp_nonobj _ h, orEmptyObj]
      rw [this, readFrom_empty]

theorem rawSub_nonobj (w : JVal) (h : w.isObj = false) (b : String) (q : List String) :
    rawSub w (b :: q) = none := by
  simp [rawSub, getProp_nonobj _ h]

theorem setDeepValue_nonobj (s : JVal) (h : s.isObj = false) (p : List String)
    (k : String) (v : JVal) :
    setDeepValue s p k v = setDeepValue (JVal.vobj []) p k v := by
  cases s with
  | vobj f => simp [JVal.isObj] at h
  | vnull => cases p <;> rfl
  | vbool b => cases p <;> rfl
  | vnum n => cases p <;> rfl
  | vstr t => cases p <;> rfl

/-!  Read-after-write and stored value after write. -/

theorem readFrom_setDeepValue_self (p : List String) (s : JVal) (k : String) (v d : JVal) :
    readFrom (JVal.vobj (setDeepValue s p k v)) p k d = nullishCoalesce (some v) d := by
  induction p generalizing s with
  | nil =>
      show nullishCoalesce ((JVal.vobj (setField s.spreadFields k v)).getProp k) d
        = nullishCoalesce (some v) d
      rw [JVal.getProp, lookupField_setField_self]
  | cons a rest ih =>
      rw [readFrom_cons]
      have hstep : readStep (JVal.vobj (setDeepValue s (a :: rest) k v)) a
          = JVal.vobj (setDeepValue (orEmptyObj (s.getProp a)) rest k v) := by
        simp [readStep, setDeepValue, JVal.getProp, lookupField_setField_self,
          orEmptyObj, JVal.truthy]
      rw [hstep, ih]

theorem rawSub_setDeepValue_self (p : List String) (s : JVal) (k : String) (v : JVal) :
    rawSub (JVal.vobj (setDeepValue s p k v)) (p ++ [k]) = some v := by
  induction p generalizing s with
  | nil =>
      show rawSub (JVal.vobj (setField s.spreadFields k v)) [k] = some v
      simp [rawSub, JVal.getProp, lookupField_setField_self]
  | cons a rest ih =>
      have hprop : (JVal.vobj (setDeepValue s (a :: rest) k v)).getProp a
          = some (JVal.vobj (setDeepValue (orEmptyObj (s.getProp a)) rest k v)) := by
        simp [setDeepValue, JVal.getProp, lookupField_setField_self]
      simp only [List.cons_append, rawSub, hprop]
      exact ih _

/-!  Off-path frame lemmas.  A write from the empty object builds exactly the
spine `p ++ [k]`; positions off that spine hold nothing. -/

theorem rawSub_setDeepValue_empty_off (p q : List String) (k : String) (v : JVal)
    (h1 : listStartsWith p q = false) (h2 : listStartsWith q (p ++ [k]) = false) :
    rawSub (JVal.vobj (setDeepValue (JVal.vobj []) p k v)) q = none := by
  induction p generalizing q with
  | nil =>
      cases q with
      | nil => simp [listStartsWith] at h1
      | cons b q2 =>
          by_cases hb : b = k
          · subst hb
            simp [listStartsWith] at h2
          · have hb2 : ¬ k = b := fun hh => hb hh.symm
            show rawSub (JVal.vobj (setField [] k v)) (b :: q2) = none
            simp [setField, rawSub, JVal.getProp, lookupField, hb2]
  | cons a p2 ih =>
      cases q with
      | nil => simp [listStartsWith] at h1
      | cons b q2 =>
          by_cases hb : b = a
          · subst hb
            have h1' : listStartsWith p2 q2 = false := by
              simpa [listStartsWith] using h1
            have h2' : listStartsWith q2 (p2 ++ [k]) = false := by
              simpa [listStartsWith] using h2
            have hprop : (JVal.vobj (setDeepValue (JVal.vobj []) (b :: p2) k v)).getProp b
                = some (JVal.vobj (setDeepValue (JVal.vobj []) p2 k v)) := by
              simp [setDeepValue, JVal.getProp, JVal.spreadFields, lookupField,
                orEmptyObj, setField]
            simp only [rawSub, hprop]
            exact ih q2 h1' h2'
          · have hb2 : ¬ a = b := fun hh => hb hh.symm
            show rawSub (JVal.vobj (setField [] a
                (JVal.vobj (setDeepValue (orEmptyObj ((JVal.vobj ([] : JObj)).getProp a))
                  p2 k v)))) (b :: q2) = none
            simp [setField, rawSub, JVal.getProp, lookupField, hb2]

/-- Structural sharing of `setDeepValue`: a position that is neither along the
written path nor at/below the written leaf holds the very subtree it held
before the write. -/
theorem rawSub_setDeepValue_off (p q : List String) (s : JVal) (k : String) (v : JVal)
    (h1 : listStartsWith p q = false) (h2 : listStartsWith q (p ++ [k]) = false) :
    rawSub (JVal.vobj (setDeepValue s p k v)) q = rawSub s q := by
  induction p generalizing s q with
  | nil =>
      cases q with
      | nil => simp [listStartsWith] at h1
      | cons b q2 =>
          by_cases hb : b = k
          · subst hb
            simp [listStartsWith] at h2
          · show rawSub (JVal.vobj (setField s.spreadFields k v)) (b :: q2) = rawSub s (b :: q2)
            simp only [rawSub, JVal.getProp, lookupField_setField_ne _ _ _ _ hb,
              ← getProp_eq_lookupField_spread]
  | cons a p2 ih =>
      cases q with
      | nil => simp [listStartsWith] at h1
      | cons b q2 =>
          by_cases hb : b = a
          · subst hb
            have h1' : listStartsWith p2 q2 = false := by
              simpa [listStartsWith] using h1
            have h2' : listStartsWith q2 (p2 ++ [k]) = false := by
              simpa [listStartsWith] using h2
            have hq2 : q2 ≠ [] := by
              intro hq
              subst hq
              simp [listStartsWith] at h1'
            have hprop : (JVal.vobj (setDeepValue s (b :: p2) k v)).getProp b
                = some (JVal.vobj (setDeepValue (orEmptyObj (s.getProp b)) p2 k v)) := by
              simp [setDeepValue, JVal.getProp, lookupField_setField_self]
            simp only [rawSub, hprop]
            obtain ⟨c, t, hq⟩ : ∃ c t, q2 = c :: t := by
              cases q2 with
              | nil => exact absurd rfl hq2
              | cons c t => exact ⟨c, t, rfl⟩
            cases hw : s.getProp b with
            | none =>
                show rawSub (JVal.vobj (setDeepValue (orEmptyObj none) p2 k v)) q2 = none
                exact rawSub_setDeepValue_empty_off p2 q2 k v h1' h2'
            | some w =>
                show rawSub (JVal.vobj (setDeepValue (orEmptyObj (some w)) p2 k v)) q2
                  = rawSub w q2
                by_cases ht : w.truthy
                · by_cases ho : w.isObj
                  · have hw2 : orEmptyObj (some w) = w := by simp [orEmptyObj, ht]
                    rw [hw2]
                    exact ih q2 w h1' h2'
                  · have hno : w.isObj = false := by simpa using ho
                    have hw2 : orEmptyObj (some w) = w := by simp [orEmptyObj, ht]
                    rw [hw2, setDeepValue_nonobj w hno,
                      rawSub_setDeepValue_empty_off p2 q2 k v h1' h2', hq,
                      rawSub_nonobj w hno]
                · have hno : w.isObj = false := isObj_false_of_truthy_false w (by simpa using ht)
                  have hw2 : orEmptyObj (some w) = JVal.vobj [] := by simp [orEmptyObj, ht]
                  rw [hw2, rawSub_setDeepValue_empty_off p2 q2 k v h1' h2', hq,
                    rawSub_nonobj w hno]
          · show rawSub (JVal.vobj (setField s.spreadFields a _)) (b :: q2) = rawSub s (b :: q2)
            simp only [rawSub, JVal.getProp, lookupField_setField_ne _ _ _ _ hb,
              ← getProp_eq_lookupField_spread]

/-!  Isolation of the namespaced read from writes at incomparable paths. -/

theorem readFrom_setDeepValue_empty_div (p q : List String) (k1 k2 : String) (v d : JVal)
    (h1 : listStartsWith p q = false) (h2 : listStartsWith q p = false) :
    readFrom (JVal.vobj (setDeepValue (JVal.vobj []) p k1 v)) q k2 d = d := by
  induction p generalizing q with
  | nil => simp [listStartsWith] at h2
  | cons a p2 ih =>
      cases q with
      | nil => simp [listStartsWith] at h1
      | cons b q2 =>
          rw [readFrom_cons]
          by_cases hb : b = a
          · subst hb
            have h1' : listStartsWith p2 q2 = false := by
              simpa [listStartsWith] using h1
            have h2' : listStartsWith q2 p2 = false := by
              simpa [listStartsWith] using h2
            have hstep : readStep (JVal.vobj (setDeepValue (JVal.vobj []) (b :: p2) k1 v)) b
                = JVal.vobj (setDeepValue (JVal.vobj []) p2 k1 v) := by
              simp [readStep, setDeepValue, JVal.getProp, JVal.spreadFields, setField,
                lookupField, orEmptyObj, JVal.truthy]
            rw [hstep]
            exact ih q2 h1' h2'
          · have hb2 : ¬ a = b := fun hh => hb hh.symm
            have hstep : readStep (JVal.vobj (setDeepValue (JVal.vobj []) (a :: p2) k1 v)) b
                = JVal.vobj [] := by
              simp [readStep, setDeepValue, JVal.getProp, JVal.spreadFields, setField,
                lookupField, hb2, orEmptyObj]
            rw [hstep, readFrom_empty]

theorem readFrom_setDeepValue_incomp (p q : List String) (s : JVal) (k1 k2 : String) (v d : JVal)
    (h1 : listStartsWith p q = false) (h2 : listStartsWith q p = false) :
    readFrom (JVal.vobj (setDeepValue s p k1 v)) q k2 d = readFrom s q k2 d := by
  induction p generalizing s q with
  | nil => simp [listStartsWith] at h2
  | cons a p2 ih =>
      cases q with
      | nil => simp [listStartsWith] at h1
      | cons b q2 =>
          rw [readFrom_cons, readFrom_cons]
          by_cases hb : b = a
          · subst hb
            have h1' : listStartsWith p2 q2 = false := by
              simpa [listStartsWith] using h1
            have h2' : listStartsWith q2 p2 = false := by
              simpa [listStartsWith] using h2
            have hstep : readStep (JVal.vobj (setDeepValue s (b :: p2) k1 v)) b
                = JVal.vobj (setDeepValue (orEmptyObj (s.getProp b)) p2 k1 v) := by
              simp [readStep, setDeepValue, JVal.getProp, lookupField_setField_self,
                orEmptyObj, JVal.truthy]
            rw [hstep, show readStep s b = orEmptyObj (s.getProp b) from rfl]
            cases hw : s.getProp b with
            | none =>
                show readFrom (JVal.vobj (setDeepValue (orEmptyObj none) p2 k1 v)) q2 k2 d
                  = readFrom (orEmptyObj none) q2 k2 d
                rw [show orEmptyObj none = JVal.vobj [] from rfl,
                  readFrom_setDeepValue_empty_div p2 q2 k1 k2 v d h1' h2', readFrom_empty]
            | some w =>
                by_cases ht : w.truthy
                · have hw2 : orEmptyObj (some w) = w := by simp [orEmptyObj, ht]
                  rw [hw2]
                  by_cases ho : w.isObj
                  · exact ih q2 w h1' h2'
                  · have hno : w.isObj = false := by simpa using ho
                    rw [setDeepValue_nonobj w hno,
                      readFrom_setDeepValue_empty_div p2 q2 k1 k2 v d h1' h2',
                      readFrom_nonobj w hno]
                · have hw2 : orEmptyObj (some w) = JVal.vobj [] := by simp [orEmptyObj, ht]
                  rw [hw2, readFrom_setDeepValue_empty_div p2 q2 k1 k2 v d h1' h2',
                    readFrom_empty]
          · have hstep : readStep (JVal.vobj (setDeepValue s (a :: p2) k1 v)) b
                = orEmptyObj (s.getProp b) := by
              simp only [readStep, setDeepValue, JVal.getProp,
                lookupField_setField_ne _ _ _ _ hb, ← getProp_eq_lookupField_spread]
            rw [hstep, show readStep s b = orEmptyObj (s.getProp b) from rfl]

/-!  Writing through a non-container intermediate segment. -/

theorem rawSub_setDeepValue_collision (p1 : List String) (a : String) (p2 : List String)
    (s : JVal) (k : String) (v w : JVal)
    (hw : rawSub s (p1 ++ [a]) = some w) (ho : w.isObj = false) :
    rawSub (JVal.vobj (setDeepValue s (p1 ++ a :: p2) k v)) (p1 ++ [a])
      = some (JVal.vobj (setDeepValue (JVal.vobj []) p2 k v)) := by
  induction p1 generalizing s with
  | nil =>
      have hget : s.getProp a = some w := by
        cases hz : s.getProp a with
        | none => simp [rawSub, hz] at hw
        | some w0 =>
            simp only [List.nil_append, rawSub, hz] at hw
            exact hw
      have hprop : (JVal.vobj (setDeepValue s (a :: p2) k v)).getProp a
          = some (JVal.vobj (setDeepValue (orEmptyObj (s.getProp a)) p2 k v)) := by
        show lookupField (setField s.spreadFields a
            (JVal.vobj (setDeepValue (orEmptyObj (s.getProp a)) p2 k v))) a = _
        exact lookupField_setField_self _ _ _
      rw [hget] at hprop
      simp only [List.nil_append, rawSub, hprop]
      by_cases ht : w.truthy
      · have hw2 : orEmptyObj (some w) = w := by simp [orEmptyObj, ht]
        rw [hw2, setDeepValue_nonobj w ho]
      · have hw2 : orEmptyObj (some w) = JVal.vobj [] := by simp [orEmptyObj, ht]
        rw [hw2]
  | cons b p1' ih =>
      have hcons : ∃ c t, p1' ++ [a] = c :: t := by
        cases p1' with
        | nil => exact ⟨a, [], rfl⟩
        | cons c t => exact ⟨c, t ++ [a], rfl⟩
      obtain ⟨c, t, hct⟩ := hcons
      cases hz : s.getProp b with
      | none => simp [rawSub, hz] at hw
      | some w0 =>
          have hw0 : rawSub w0 (p1' ++ [a]) = some w := by
            simpa only [List.cons_append, rawSub, hz] using hw
          have hobj : w0.isObj = true := by
            rw [hct] at hw0
            cases hz0 : w0.getProp c with
            | none => simp [rawSub, hz0] at hw0
            | some y => exact getProp_some_isObj w0 c y hz0
          have ht0 : w0.truthy = true := truthy_of_isObj w0 hobj
          have hprop : (JVal.vobj (setDeepValue s (b :: (p1' ++ a :: p2)) k v)).getProp b
              = some (JVal.vobj (setDeepValue (orEmptyObj (s.getProp b)) (p1' ++ a :: p2) k v)) := by
            show lookupField (setField s.spreadFields b
                (JVal.vobj (setDeepValue (orEmptyObj (s.getProp b)) (p1' ++ a :: p2) k v))) b = _
            exact lookupField_setField_self _ _ _
          rw [hz] at hprop
          have hw2 : orEmptyObj (some w0) = w0 := by simp [orEmptyObj, ht0]
          rw [hw2] at hprop
          show rawSub (JVal.vobj (setDeepValue s (b :: (p1' ++ a :: p2)) k v)) (b :: (p1' ++ [a]))
            = some (JVal.vobj (setDeepValue (JVal.vobj []) p2 k v))
          simp only [rawSub, hprop]
          exact ih w0 hw0

/-!  Reads strictly below a written non-container leaf. -/

theorem readFrom_setDeepValue_below (p : List String) (s : JVal) (k : String) (v : JVal)
    (hv : v.isObj = false) (r : List String) (k2 : String) (d : JVal) :
    readFrom (JVal.vobj (setDeepValue s p k v)) (p ++ k :: r) k2 d = d := by
  induction p generalizing s with
  | nil =>
      rw [List.nil_append, readFrom_cons]
      have hstep : readStep (JVal.vobj (setDeepValue s [] k v)) k = orEmptyObj (some v) := by
        show orEmptyObj ((JVal.vobj (setField s.spreadFields k v)).getProp k) = _
        rw [JVal.getProp, lookupField_setField_self]
      rw [hstep]
      by_cases ht : v.truthy
      · have hv2 : orEmptyObj (some v) = v := by simp [orEmptyObj, ht]
        rw [hv2, readFrom_nonobj v hv]
      · have hv2 : orEmptyObj (some v) = JVal.vobj [] := by simp [orEmptyObj, ht]
        rw [hv2, readFrom_empty]
  | cons a p2 ih =>
      rw [List.cons_append, readFrom_cons]
      have hstep : readStep (JVal.vobj (setDeepValue s (a :: p2) k v)) a
          = JVal.vobj (setDeepValue (orEmptyObj (s.getProp a)) p2 k v) := by
        simp [readStep, setDeepValue, JVal.getProp, lookupField_setField_self,
          orEmptyObj, JVal.truthy]
      rw [hstep]
      exact ih _

/-!  Path memoization lemmas. -/

theorem compareStringArrays_cons (x y : String) (xs ys : List String) :
    compareStringArrays (x :: xs) (y :: ys) = ((x == y) && compareStringArrays xs ys) := by
  by_cases h : xs.length = ys.length
  · simp [compareStringArrays, h]
  · simp [compareStringArrays, h]

theorem compareStringArrays_eq_true_iff (a b : List String) :
    compareStringArrays a b = true ↔ a = b := by
  induction a generalizing b with
  | nil =>
      cases b with
      | nil => simp [compareStringArrays]
      | cons y ys => simp [compareStringArrays]
  | cons x xs ih =>
      cases b with
      | nil => simp [compareStringArrays]
      | cons y ys =>
          rw [compareStringArrays_cons]
          simp [ih]

/-!  Provider-chain lemmas. -/

theorem stateNamespaceProvider_nonroot (ctx : NamespaceCtx) (p : ProviderProps)
    (h : ctx.nspace ≠ []) :
    (stateNamespaceProvider ctx p).namespaceAtom = ctx.namespaceAtom
      ∧ (stateNamespaceProvider ctx p).nspace ≠ [] := by
  have hempty : ctx.nspace.isEmpty = false := by
    cases hc : ctx.nspace with
    | nil => exact absurd hc h
    | cons c t => rfl
  constructor
  · cases hr : p.rootAtom with
    | none => simp [stateNamespaceProvider, hr]
    | some a => simp [stateNamespaceProvider, hr, hempty]
  · cases hs : p.segment with
    | none => simpa [stateNamespaceProvider, hs] using h
    | some seg =>
        by_cases he : seg = ""
        · simpa [stateNamespaceProvider, hs, he] using h
        · simp [stateNamespaceProvider, hs, he]

theorem foldl_provider_stable (desc : List ProviderProps) (ctx : NamespaceCtx)
    (h : ctx.nspace ≠ []) :
    (List.foldl stateNamespaceProvider ctx desc).namespaceAtom = ctx.namespaceAtom := by
  induction desc generalizing ctx with
  | nil => rfl
  | cons p rest ih =>
      obtain ⟨ha, hn⟩ := stateNamespaceProvider_nonroot ctx p h
      rw [List.foldl_cons, ih _ hn, ha]

/-!  Small bridges used by the claim theorems. -/

theorem readFrom_append (s : JVal) (p q : List String) (key : String) (d : JVal) :
    readFrom s (p ++ q) key d = readFrom (descend s p) q key d := by
  rw [readFrom, readFrom, descend_append]

theorem writeAtom_updater (o : JObj) (p : List String) (k : String) (d : JVal)
    (f : JVal → JVal) :
    writeAtom o p k d (Update.updater f) = setDeepValue (JVal.vobj o) p k (f (readValue o p k d)) :=
  rfl

theorem readValue_setDeepValue_self (o : JObj) (p : List String) (k : String) (v d : JVal) :
    readValue (setDeepValue (JVal.vobj o) p k v) p k d = if v.isNull then d else v := by
  rw [readValue, readFrom_setDeepValue_self, nullishCoalesce_some]

/-!  Claim theorems. -/

/-- Claim C1, counterexample: the write-then-read round trip fails as stated
when the written value is `null`.  Writing `null` at `(["a"], "k")` into the
empty container and reading back with default `0` yields the default `0`,
not the written value `null` (the read ends in `state[key] ?? defaultValue`,
and `null ?? 0` is `0`). -/
theorem claim1_counterexample :
    readValue (setDeepValue (JVal.vobj []) ["a"] "k" JVal.vnull) ["a"] "k" (JVal.vnum 0)
        = JVal.vnum 0
      ∧ JVal.vnum 0 ≠ JVal.vnull := by
  exact ⟨rfl, by simp⟩

/-- Claim C1, amended: for every container state, path, leaf key and value,
writing and then reading back (with any default) returns the written value
when it is not `null`; a written `null` reads back as the default. -/
theorem claim1_write_then_read (o : JObj) (p : List String) (k : String) (v d : JVal) :
    readValue (setDeepValue (JVal.vobj o) p k v) p k d = if v.isNull then d else v :=
  readValue_setDeepValue_self o p k v d

/-- Claim C3: structural sharing.  After `setDeepValue` at path `p` and leaf
key `k`, the subtree at any position `q` that neither lies along the written
path (`q` is not an initial segment of `p`) nor sits at or below the written
leaf (`p ++ [k]` is not an initial segment of `q`) is the very subtree value
held before the write: `setDeepValue` passes those subtrees through by
reference, which the embedding renders as term equality. -/
theorem claim3_structural_sharing (o : JObj) (p q : List String) (k : String) (v : JVal)
    (h1 : listStartsWith p q = false) (h2 : listStartsWith q (p ++ [k]) = false) :
    rawSub (JVal.vobj (setDeepValue (JVal.vobj o) p k v)) q = rawSub (JVal.vobj o) q :=
  rawSub_setDeepValue_off p q (JVal.vobj o) k v h1 h2

/-- Claim C3, witness: concrete instance with container
`\x7ba: \x7bx: 1\x7d, y: 2\x7d`, write at path `["a"]` key `"k"`, and
off-path position `["y"]`. -/
theorem claim3_witness :
    listStartsWith ["a"] ["y"] = false
      ∧ listStartsWith ["y"] (["a"] ++ ["k"]) = false
      ∧ rawSub (JVal.vobj (setDeepValue
            (JVal.vobj [("a", JVal.vobj [("x", JVal.vnum 1)]), ("y", JVal.vnum 2)])
            ["a"] "k" (JVal.vnum 3))) ["y"]
          = rawSub (JVal.vobj [("a", JVal.vobj [("x", JVal.vnum 1)]), ("y", JVal.vnum 2)]) ["y"] :=
  ⟨rfl, rfl,
    claim3_structural_sharing [("a", JVal.vobj [("x", JVal.vnum 1)]), ("y", JVal.vnum 2)]
      ["a"] ["y"] "k" (JVal.vnum 3) rfl rfl⟩

/-- Claim C4, counterexample: the claim's unqualified "the subsequent read of
(P, K) returns the written value" fails for a written `null`, also in the
collision scenario: container `\x7ba: 5\x7d`, write `null` at `(["a"], "k")`,
read back with default `3` yields `3`, not `null`. -/
theorem claim4_counterexample :
    readValue (setDeepValue (JVal.vobj [("a", JVal.vnum 5)]) ["a"] "k" JVal.vnull)
        ["a"] "k" (JVal.vnum 3) = JVal.vnum 3
      ∧ JVal.vnum 3 ≠ JVal.vnull := by
  exact ⟨rfl, by simp⟩

/-- Claim C4, amended: when an intermediate segment `a` along the written path
holds a non-container value `w`, the write does not throw (the embedded
`setDeepValue` is a total function); it overwrites that segment with a fresh
container node holding exactly the newly written spine, and the subsequent
read of the written address returns the written value when it is not `null`
(a written `null` reads back as the default). -/
theorem claim4_collision_write (o : JObj) (p1 : List String) (a : String) (p2 : List String)
    (k : String) (v w d : JVal)
    (hw : rawSub (JVal.vobj o) (p1 ++ [a]) = some w) (ho : w.isObj = false) :
    rawSub (JVal.vobj (setDeepValue (JVal.vobj o) (p1 ++ a :: p2) k v)) (p1 ++ [a])
        = some (JVal.vobj (setDeepValue (JVal.vobj []) p2 k v))
      ∧ readValue (setDeepValue (JVal.vobj o) (p1 ++ a :: p2) k v) (p1 ++ a :: p2) k d
        = if v.isNull then d else v :=
  ⟨rawSub_setDeepValue_collision p1 a p2 (JVal.vobj o) k v w hw ho,
    readValue_setDeepValue_self o (p1 ++ a :: p2) k v d⟩

/-- Claim C4, witness: container `\x7ba: 5\x7d`, write `9` at
`(["a","b"], "k")`: the colliding segment `a` becomes the fresh container
`\x7bb: \x7bk: 9\x7d\x7d` and the read returns `9`. -/
theorem claim4_witness :
    rawSub (JVal.vobj [("a", JVal.vnum 5)]) ([] ++ ["a"]) = some (JVal.vnum 5)
      ∧ (JVal.vnum 5).isObj = false
      ∧ (rawSub (JVal.vobj (setDeepValue (JVal.vobj [("a", JVal.vnum 5)])
              ([] ++ "a" :: ["b"]) "k" (JVal.vnum 9))) ([] ++ ["a"])
            = some (JVal.vobj (setDeepValue (JVal.vobj []) ["b"] "k" (JVal.vnum 9)))
          ∧ readValue (setDeepValue (JVal.vobj [("a", JVal.vnum 5)])
              ([] ++ "a" :: ["b"]) "k" (JVal.vnum 9)) ([] ++ "a" :: ["b"]) "k" (JVal.vnum 0)
            = if (JVal.vnum 9).isNull then JVal.vnum 0 else JVal.vnum 9) :=
  ⟨rfl, rfl,
    claim4_collision_write [("a", JVal.vnum 5)] [] "a" ["b"] "k"
      (JVal.vnum 9) (JVal.vnum 5) (JVal.vnum 0) rfl rfl⟩

/-- Claim C6: isolation.  Writing at path `p1` (any leaf key, any value)
never changes the result of a namespaced read at any path `p2` that is
neither an initial segment of `p1` nor extends `p1` (incomparable paths). -/
theorem claim6_isolation (o : JObj) (p1 p2 : List String) (k1 k2 : String) (v d : JVal)
    (h1 : listStartsWith p1 p2 = false) (h2 : listStartsWith p2 p1 = false) :
    readValue (setDeepValue (JVal.vobj o) p1 k1 v) p2 k2 d = readValue o p2 k2 d :=
  readFrom_setDeepValue_incomp p1 p2 (JVal.vobj o) k1 k2 v d h1 h2

/-- Claim C6, witness: container `\x7bx: \x7bcount: 4\x7d\x7d`, a write at
path `["y"]` leaves the read at the incomparable path `["x"]` unchanged. -/
theorem claim6_witness :
    listStartsWith ["y"] ["x"] = false
      ∧ listStartsWith ["x"] ["y"] = false
      ∧ readValue (setDeepValue (JVal.vobj [("x", JVal.vobj [("count", JVal.vnum 4)])])
            ["y"] "k" (JVal.vnum 9)) ["x"] "count" (JVal.vnum 0)
        = readValue [("x", JVal.vobj [("count", JVal.vnum 4)])] ["x"] "count" (JVal.vnum 0) :=
  ⟨rfl, rfl,
    claim6_isolation [("x", JVal.vobj [("count", JVal.vnum 4)])] ["y"] ["x"] "k" "count"
      (JVal.vnum 9) (JVal.vnum 0) rfl rfl⟩

/-- Claim C8: unwritten keys read as the caller-supplied default.  From the
empty root container every read returns its default; and the concrete
scenario holds: writing `1` at `(["a","b"], "count")` produces exactly
`\x7ba: \x7bb: \x7bcount: 1\x7d\x7d\x7d`, reading `(["a","b"], "count")` with
default `0` gives `1`, and the never-written addresses `(["a","c"], "count")`
and `([], "count")` give the default `0`. -/
theorem claim8_defaults_scenario :
    (∀ (p : List String) (k : String) (d : JVal), readValue [] p k d = d)
      ∧ setDeepValue (JVal.vobj []) ["a", "b"] "count" (JVal.vnum 1)
        = [("a", JVal.vobj [("b", JVal.vobj [("count", JVal.vnum 1)])])]
      ∧ readValue (setDeepValue (JVal.vobj []) ["a", "b"] "count" (JVal.vnum 1))
          ["a", "b"] "count" (JVal.vnum 0) = JVal.vnum 1
      ∧ readValue (setDeepValue (JVal.vobj []) ["a", "b"] "count" (JVal.vnum 1))
          ["a", "c"] "count" (JVal.vnum 0) = JVal.vnum 0
      ∧ readValue (setDeepValue (JVal.vobj []) ["a", "b"] "count" (JVal.vnum 1))
          [] "count" (JVal.vnum 0) = JVal.vnum 0 :=
  ⟨fun p k d => readFrom_empty p k d, rfl, rfl, rfl, rfl⟩

/-- Claim C10, counterexample: the claim fails when the written value is
itself a container.  Container `\x7ba: \x7bb: \x7bc: 7\x7d\x7d\x7d` (built by a
previous write), then `write([], "a", \x7bb: \x7bc: 1\x7d\x7d)`: the path
`["a","b"]` strictly extends `[] ++ ["a"]`, yet `read(["a","b"], "c", 0)`
returns `1`, not the default `0`. -/
theorem claim10_counterexample :
    readValue (setDeepValue
        (JVal.vobj (setDeepValue (JVal.vobj []) ["a", "b"] "c" (JVal.vnum 7)))
        [] "a" (JVal.vobj [("b", JVal.vobj [("c", JVal.vnum 1)])]))
        ["a", "b"] "c" (JVal.vnum 0) = JVal.vnum 1
      ∧ JVal.vnum 1 ≠ JVal.vnum 0 := by
  exact ⟨rfl, by simp⟩

/-- Claim C10, amended: a write at `(p, k)` replaces the subtree stored at
`p ++ [k]` entirely (the raw subtree there afterwards is exactly the written
value); and when the written value is not itself a container, every read at a
path extending `p ++ [k]` returns the caller-supplied default, whatever was
written there before. -/
theorem claim10_leaf_replacement (o : JObj) (p : List String) (k : String) (v : JVal) :
    rawSub (JVal.vobj (setDeepValue (JVal.vobj o) p k v)) (p ++ [k]) = some v
      ∧ (v.isObj = false → ∀ (r : List String) (k2 : String) (d : JVal),
          readValue (setDeepValue (JVal.vobj o) p k v) (p ++ k :: r) k2 d = d) :=
  ⟨rawSub_setDeepValue_self p (JVal.vobj o) k v,
    fun hv r k2 d => readFrom_setDeepValue_below p (JVal.vobj o) k v hv r k2 d⟩

/-- Claim C10, witness: container `\x7ba: \x7bb: 2\x7d\x7d`, write `5` at
`(["a"], "b")`: the stored subtree at `["a","b"]` is exactly `5`, and the
read at the strictly longer path `["a","b","x"]` returns the default. -/
theorem claim10_witness :
    rawSub (JVal.vobj (setDeepValue (JVal.vobj [("a", JVal.vobj [("b", JVal.vnum 2)])])
          ["a"] "b" (JVal.vnum 5))) (["a"] ++ ["b"]) = some (JVal.vnum 5)
      ∧ (JVal.vnum 5).isObj = false
      ∧ readValue (setDeepValue (JVal.vobj [("a", JVal.vobj [("b", JVal.vnum 2)])])
            ["a"] "b" (JVal.vnum 5)) (["a"] ++ "b" :: ["x"]) "z" (JVal.vnum 0) = JVal.vnum 0 :=
  ⟨(claim10_leaf_replacement [("a", JVal.vobj [("b", JVal.vnum 2)])] ["a"] "b" (JVal.vnum 5)).1,
    rfl,
    (claim10_leaf_replacement [("a", JVal.vobj [("b", JVal.vnum 2)])] ["a"] "b"
      (JVal.vnum 5)).2 rfl ["x"] "z" (JVal.vnum 0)⟩

/-- Claim C9: `compareStringArrays a b` is `true` exactly when the two string
arrays have the same length and equal elements at every index, i.e. when the
lists are equal; consequently `useMemoEqual` guarded by this comparator
always returns a value element-wise equal to its input path. -/
theorem claim9_compare_memo :
    (∀ a b : List String, compareStringArrays a b = true ↔ a = b)
      ∧ (∀ r v : List String, useMemoEqual r v compareStringArrays = v) := by
  refine ⟨compareStringArrays_eq_true_iff, fun r v => ?_⟩
  by_cases h : (v == r || compareStringArrays v r) = true
  · have hv : v = r := by
      rcases Bool.or_eq_true_iff.mp h with h1 | h2
      · exact beq_iff_eq.mp h1
      · exact (compareStringArrays_eq_true_iff v r).mp h2
    simp [useMemoEqual, h, hv]
  · simp [useMemoEqual, h]

/-- Claim C9, witness: the comparator holds on equal arrays, and
`useMemoEqual` returns (a value equal to) its input path on a changed path. -/
theorem claim9_witness :
    compareStringArrays ["a", "b"] ["a", "b"] = true
      ∧ useMemoEqual ["q"] ["z"] compareStringArrays = ["z"] :=
  ⟨(claim9_compare_memo.1 ["a", "b"] ["a", "b"]).mpr rfl,
    claim9_compare_memo.2 ["q"] ["z"]⟩

/-- Claim C2, counterexample: the rootAtom precedence is not governed by
whether an ancestor already established a container, but by whether the
ambient namespace path is empty.  Outer provider: no segment, rootAtom `1`
(which becomes the root, so an ancestor has established a container); inner
provider: no segment, rootAtom `2`.  The claim says the inner scope must
inherit `1` unchanged; the code instead lets `2` become the root, because the
inner parent's namespace path is still empty. -/
theorem claim2_counterexample :
    (mountProviders [{ segment := none, rootAtom := some 1 }]).namespaceAtom = 1
      ∧ anyDeclaresRoot [{ segment := none, rootAtom := some 1 }] = true
      ∧ (mountProviders [{ segment := none, rootAtom := some 1 },
          { segment := none, rootAtom := some 2 }]).namespaceAtom = 2
      ∧ (2 : Nat) ≠ 1 :=
  ⟨rfl, rfl, rfl, by decide⟩

/-- Claim C2, amended: a scope's declared backing container becomes the
shared root for itself and all descendants when the ambient namespace path
inherited from its ancestors is empty (and the scope introduces a namespace
segment, after which no deeper redeclaration can take effect); when the
ambient path is nonempty, the declaration is ignored and the nearest
ancestor's container is inherited unchanged. -/
theorem claim2_root_binding :
    (∀ (anc : List ProviderProps) (s : String) (A : Nat) (desc : List ProviderProps),
        s ≠ "" → (mountProviders anc).nspace = [] →
        (List.foldl stateNamespaceProvider
          (stateNamespaceProvider (mountProviders anc)
            { segment := some s, rootAtom := some A })
          desc).namespaceAtom = A)
      ∧ (∀ (anc : List ProviderProps) (props : ProviderProps),
        (mountProviders anc).nspace ≠ [] →
        (stateNamespaceProvider (mountProviders anc) props).namespaceAtom
          = (mountProviders anc).namespaceAtom) := by
  constructor
  · intro anc s A desc hs h0
    have hstep : stateNamespaceProvider (mountProviders anc)
        { segment := some s, rootAtom := some A }
        = { nspace := [s], namespaceAtom := A } := by
      simp [stateNamespaceProvider, h0, hs]
    rw [hstep, foldl_provider_stable desc _ (by simp)]
  · intro anc props h
    exact (stateNamespaceProvider_nonroot (mountProviders anc) props h).1

/-- Claim C2, witness: a scope declaring container `5` under segment `"a"` at
an empty ambient path stays the root below a further provider that declares
`7`; and a declaration of `9` under the nonempty ambient path `["x"]` is
ignored in favour of the parent's container. -/
theorem claim2_witness :
    (List.foldl stateNamespaceProvider
        (stateNamespaceProvider (mountProviders [])
          { segment := some "a", rootAtom := some 5 })
        [{ segment := some "b", rootAtom := some 7 }]).namespaceAtom = 5
      ∧ (stateNamespaceProvider (mountProviders [{ segment := some "x", rootAtom := none }])
          { segment := none, rootAtom := some 9 }).namespaceAtom
        = (mountProviders [{ segment := some "x", rootAtom := none }]).namespaceAtom :=
  ⟨claim2_root_binding.1 [] "a" 5 [{ segment := some "b", rootAtom := some 7 }]
      (by decide) rfl,
    claim2_root_binding.2 [{ segment := some "x", rootAtom := none }]
      { segment := none, rootAtom := some 9 } (by decide)⟩

/-- Claim C5: updater semantics.  When the write receives an updater `f`, it
applies `f` to the value the read contract currently returns for the address
(the default when nothing meaningful is stored): starting from any container
in which the read of `(p, k)` with default `n` returns `n`, two sequential
writes of the increment updater store `n + 2` at `p ++ [k]`, and the read
then returns `n + 2`. -/
theorem claim5_updater_twice (o : JObj) (p : List String) (k : String) (n : Int)
    (h : readValue o p k (JVal.vnum n) = JVal.vnum n) :
    readValue (writeAtom (writeAtom o p k (JVal.vnum n) (Update.updater incrementUpdater))
        p k (JVal.vnum n) (Update.updater incrementUpdater)) p k (JVal.vnum n)
      = JVal.vnum (n + 2)
    ∧ rawSub (JVal.vobj (writeAtom
        (writeAtom o p k (JVal.vnum n) (Update.updater incrementUpdater))
        p k (JVal.vnum n) (Update.updater incrementUpdater))) (p ++ [k])
      = some (JVal.vnum (n + 2)) := by
  have hplus : n + 1 + 1 = n + 2 := by ring
  have h1 : writeAtom o p k (JVal.vnum n) (Update.updater incrementUpdater)
      = setDeepValue (JVal.vobj o) p k (JVal.vnum (n + 1)) := by
    rw [writeAtom_updater, h]
    rfl
  have h2 : readValue (writeAtom o p k (JVal.vnum n) (Update.updater incrementUpdater))
      p k (JVal.vnum n) = JVal.vnum (n + 1) := by
    rw [h1, readValue_setDeepValue_self]
    rfl
  have h3 : writeAtom (writeAtom o p k (JVal.vnum n) (Update.updater incrementUpdater))
      p k (JVal.vnum n) (Update.updater incrementUpdater)
      = setDeepValue (JVal.vobj (writeAtom o p k (JVal.vnum n)
          (Update.updater incrementUpdater))) p k (JVal.vnum (n + 2)) := by
    rw [writeAtom_updater, h2]
    show setDeepValue _ p k (JVal.vnum (n + 1 + 1)) = _
    rw [hplus]
  constructor
  · rw [h3, readValue_setDeepValue_self]
    rfl
  · rw [h3, rawSub_setDeepValue_self]

/-- Claim C5, witness: on the empty container at `(["a"], "c")` with default
`0`, two increment writes store and read back `0 + 2`. -/
theorem claim5_witness :
    readValue (writeAtom (writeAtom [] ["a"] "c" (JVal.vnum 0) (Update.updater incrementUpdater))
        ["a"] "c" (JVal.vnum 0) (Update.updater incrementUpdater)) ["a"] "c" (JVal.vnum 0)
      = JVal.vnum (0 + 2)
    ∧ rawSub (JVal.vobj (writeAtom
        (writeAtom [] ["a"] "c" (JVal.vnum 0) (Update.updater incrementUpdater))
        ["a"] "c" (JVal.vnum 0) (Update.updater incrementUpdater))) (["a"] ++ ["c"])
      = some (JVal.vnum (0 + 2)) :=
  claim5_updater_twice [] ["a"] "c" 0 rfl

/-- Claim C7: read degradation.  The namespaced read descends by successive
key lookup; if an intermediate lookup yields a non-container value, or
misses, the rest of the descent behaves as an empty subtree and the read
returns the caller-supplied default; and at the final node an absent key
reads as the default.  The read is a pure function in the embedding: it
takes the container and returns a value without modifying anything. -/
theorem claim7_read_degradation :
    (∀ (o : JObj) (p1 : List String) (a : String) (p2 : List String) (k : String) (d w : JVal),
        (descend (JVal.vobj o) p1).getProp a = some w → w.isObj = false →
        readValue o (p1 ++ a :: p2) k d = d)
      ∧ (∀ (o : JObj) (p1 : List String) (a : String) (p2 : List String) (k : String) (d : JVal),
        (descend (JVal.vobj o) p1).getProp a = none →
        readValue o (p1 ++ a :: p2) k d = d)
      ∧ (∀ (o : JObj) (p : List String) (k : String) (d : JVal),
        (descend (JVal.vobj o) p).getProp k = none →
        readValue o p k d = d) := by
  refine ⟨?_, ?_, ?_⟩
  · intro o p1 a p2 k d w hw ho
    rw [readValue, readFrom_append, readFrom_cons]
    have hs : readStep (descend (JVal.vobj o) p1) a = orEmptyObj (some w) := by
      rw [readStep, hw]
    rw [hs]
    by_cases ht : w.truthy
    · have hcoerce : orEmptyObj (some w) = w := by simp [orEmptyObj, ht]
      rw [hcoerce, readFrom_nonobj w ho]
    · have hcoerce : orEmptyObj (some w) = JVal.vobj [] := by simp [orEmptyObj, ht]
      rw [hcoerce, readFrom_empty]
  · intro o p1 a p2 k d hw
    rw [readValue, readFrom_append, readFrom_cons]
    have hs : readStep (descend (JVal.vobj o) p1) a = JVal.vobj [] := by
      rw [readStep, hw]
      rfl
    rw [hs, readFrom_empty]
  · intro o p k d h
    rw [readValue, readFrom, h]
    rfl

/-- Claim C7, witness: a truthy non-container intermediate (`5` at `"a"`), a
missing intermediate, and an absent final key all read as the default. -/
theorem claim7_witness :
    ((descend (JVal.vobj [("a", JVal.vnum 5)]) []).getProp "a" = some (JVal.vnum 5)
        ∧ (JVal.vnum 5).isObj = false
        ∧ readValue [("a", JVal.vnum 5)] ([] ++ "a" :: ["x"]) "k" (JVal.vnum 7) = JVal.vnum 7)
      ∧ ((descend (JVal.vobj []) []).getProp "z" = none
        ∧ readValue [] ([] ++ "z" :: []) "k" (JVal.vnum 7) = JVal.vnum 7)
      ∧ ((descend (JVal.vobj [("a", JVal.vobj [])]) ["a"]).getProp "k" = none
        ∧ readValue [("a", JVal.vobj [])] ["a"] "k" (JVal.vnum 7) = JVal.vnum 7) :=
  ⟨⟨rfl, rfl,
      claim7_read_degradation.1 [("a", JVal.vnum 5)] [] "a" ["x"] "k" (JVal.vnum 7)
        (JVal.vnum 5) rfl rfl⟩,
    ⟨rfl, claim7_read_degradation.2.1 [] [] "z" [] "k" (JVal.vnum 7) rfl⟩,
    ⟨rfl, claim7_read_degradation.2.2 [("a", JVal.vobj [])] ["a"] "k" (JVal.vnum 7) rfl⟩⟩

end JotaiTree
